import Mathlib

/-!
Verification of the ProjectLodestar orchestration core against its
specification.  The Python modules under `modules/orchestrator/` are shallowly
embedded below: pure functions become Lean functions, the executor's `while`
loop becomes a fuel-indexed structural recursion (the fuel `remaining.length`
is proved sufficient), Python `float` costs are modelled as rationals, Python
dicts as insertion-ordered association lists, and Python sets of step names as
duplicate-free lists.  Providers (`Tool` subclasses) are modelled as records of
pure functions whose `execute` returns `Except` to model raised exceptions.
-/

/-- Artifact values (`Any` in the source) are modelled as strings; none of the
verified properties depends on the value type. -/
abbrev Val := String

/-- Python `dict` lookup. -/
def dictGet (d : List (String × Val)) (k : String) : Option Val :=
  (d.find? (fun kv => kv.1 = k)).map Prod.snd

/-- Python `dict.__setitem__` / single-key `update`: replaces the value in
place when the key is present (insertion order kept), appends otherwise. -/
def dictSet (d : List (String × Val)) (k : String) (v : Val) : List (String × Val) :=
  if d.any (fun kv => kv.1 = k) then
    d.map (fun kv => if kv.1 = k then (k, v) else kv)
  else
    d ++ [(k, v)]

/-- Python `dict.update(other)`: fold of `dictSet` over the other dict's
items in insertion order. -/
def dictUpdate (d other : List (String × Val)) : List (String × Val) :=
  other.foldl (fun acc kv => dictSet acc kv.1 kv.2) d

/- ----------------------------------------------------------------------
modules/orchestrator/decomposer.py — data model
---------------------------------------------------------------------- -/

/-- `Step` dataclass from decomposer.py (field for field; `metadata` holds the
extra playbook keys). -/
structure Step where
  name : String
  tool_type : String := "llm"
  capability : String := "general"
  prompt : String := ""
  script_path : String := ""
  script_type : String := "bash"
  operation : String := "write"
  path : String := ""
  content : Option String := none
  content_from : Option String := none
  inputs : List (String × Val) := []
  depends_on : List String := []
  output : String := ""
  preferred_model : Option String := none
  max_tokens : Nat := 4096
  args : List String := []
  working_dir : String := "."
  metadata : List (String × Val) := []
  deriving DecidableEq, Repr

/-- The task dict produced by `Step.to_task_dict`.  The trailing
`**self.metadata` splat is kept as the `extras` field: steps parsed by the
decomposer never place a known key into `metadata`, so the splat only adds
extra keys. -/
structure TaskDict where
  name : String
  tool_type : String
  capability : String
  prompt : String
  script_path : String
  script_type : String
  operation : String
  path : String
  content : Option String
  content_from : Option String
  inputs : List (String × Val)
  output : String
  preferred_model : Option String
  max_tokens : Nat
  args : List String
  working_dir : String
  extras : List (String × Val)
  deriving DecidableEq, Repr

/-- `Step.to_task_dict`; `self.output or self.name` maps the empty string to
the step name. -/
def Step.to_task_dict (s : Step) : TaskDict :=
  { name := s.name
    tool_type := s.tool_type
    capability := s.capability
    prompt := s.prompt
    script_path := s.script_path
    script_type := s.script_type
    operation := s.operation
    path := s.path
    content := s.content
    content_from := s.content_from
    inputs := s.inputs
    output := if s.output = "" then s.name else s.output
    preferred_model := s.preferred_model
    max_tokens := s.max_tokens
    args := s.args
    working_dir := s.working_dir
    extras := s.metadata }

/- ----------------------------------------------------------------------
modules/orchestrator/tools/base.py
---------------------------------------------------------------------- -/

/-- `ToolResult` dataclass from tools/base.py.  Costs (Python floats) are
modelled as rationals. -/
structure ToolResult where
  success : Bool
  output : Option Val := none
  artifacts : List (String × Val) := []
  error : Option String := none
  cost : ℚ := 0
  metadata : List (String × Val) := []
  deriving DecidableEq, Repr

/-- A registered tool (`Tool` subclass instance): its three behavioural
methods as pure functions.  `execute` returns `Except` so that a tool that
raises is representable (`.error msg` models a raised exception whose
`str` is `msg`). -/
structure ToolM where
  can_handle : TaskDict → Bool
  estimate_cost : TaskDict → ℚ
  execute : TaskDict → List (String × Val) → Except String ToolResult

/- ----------------------------------------------------------------------
modules/orchestrator/executor.py
---------------------------------------------------------------------- -/

/-- `StepOutcome` dataclass (wall-clock `duration_ms` is not modelled). -/
structure StepOutcome where
  step_name : String
  success : Bool
  output : Option Val := none
  artifacts : List (String × Val) := []
  cost : ℚ := 0
  error : Option String := none
  deriving DecidableEq, Repr

/-- `ExecutionState` dataclass.  The Python sets `completed` and `failed` are
modelled as duplicate-free lists (only membership and cardinality are ever
used). -/
structure ExecutionState where
  context : List (String × Val) := []
  outcomes : List StepOutcome := []
  total_cost : ℚ := 0
  completed : List String := []
  failed : List String := []
  deriving DecidableEq, Repr

/-- `ExecutionState.record`. -/
def ExecutionState.record (st : ExecutionState) (o : StepOutcome) : ExecutionState :=
  { st with
    outcomes := st.outcomes ++ [o]
    total_cost := st.total_cost + o.cost
    completed := if o.success then st.completed.insert o.step_name else st.completed
    context := if o.success then dictUpdate st.context o.artifacts else st.context
    failed := if o.success then st.failed else st.failed.insert o.step_name }

/-- `ExecutionState.success` property (`len(self.failed) == 0`). -/
def ExecutionState.successB (st : ExecutionState) : Bool :=
  st.failed.length = 0

/-- `StepExecutor._find_ready`: steps all of whose dependencies completed and
none of whose dependencies failed. -/
def find_ready (steps : List Step) (st : ExecutionState) : List Step :=
  steps.filter (fun s =>
    s.depends_on.all (fun dep => st.completed.contains dep) &&
    ! s.depends_on.any (fun dep => st.failed.contains dep))

/-- Python `min(xs, key=f)`: the first element attaining the minimal key. -/
def pyMin (f : α → ℚ) : List α → Option α
  | [] => none
  | x :: xs => some (xs.foldl (fun best y => if f y < f best then y else best) x)

/-- `StepExecutor._select_tool`: `min` of the capable tools by estimated
cost (`None` when no tool is capable). -/
def select_tool (tools : List ToolM) (task : TaskDict) : Option ToolM :=
  pyMin (fun t => t.estimate_cost task) (tools.filter (fun t => t.can_handle task))

/-- The failure message built when no tool is capable. -/
def noToolError (s : Step) : String :=
  "No tool available for capability '" ++ s.capability ++ "' / type '" ++ s.tool_type ++ "'"

/-- `StepExecutor._execute_step`: select a tool, run it, convert a raised
exception into a failed `ToolResult` (wall-clock duration omitted). -/
def execute_step (tools : List ToolM) (s : Step) (st : ExecutionState) : StepOutcome :=
  let task := s.to_task_dict
  match select_tool tools task with
  | none =>
      { step_name := s.name, success := false, error := some (noToolError s) }
  | some tool =>
      let result :=
        match tool.execute task st.context with
        | .ok r => r
        | .error exc => { success := false, error := some exc : ToolResult }
      { step_name := s.name
        success := result.success
        output := result.output
        artifacts := result.artifacts
        cost := result.cost
        error := result.error }

/-- The error message recorded for steps stuck in an empty-ready pass. -/
def blockedError : String :=
  "Blocked: dependencies failed or circular dependency detected"

/-- The outcome recorded for a stuck step in the empty-ready branch of
`execute_all`. -/
def blockedOutcome (s : Step) : StepOutcome :=
  { step_name := s.name, success := false, error := some blockedError }

/-- The empty-ready branch of `execute_all`: record a blocked failure for
every remaining step, in list order. -/
def recordBlocked (remaining : List Step) (st : ExecutionState) : ExecutionState :=
  remaining.foldl (fun acc stuck => acc.record (blockedOutcome stuck)) st

/-- The progress callback type of `on_step_start`; its return value is
discarded by the executor. -/
abbrev Callback := String → Nat → Nat → Unit

/-- One dispatch pass of `execute_all`'s inner `for step in ready` loop.
Threads `(remaining, state, step_index, trace)`; a trace entry is the
argument triple of an `on_step_start` call, emitted only when a callback is
installed (mirroring `if self.on_step_start:`). -/
def run_pass (tools : List ToolM) (cb : Option Callback) (total : Nat) :
    List Step → List Step → ExecutionState → Nat → List (String × Nat × Nat) →
    List Step × ExecutionState × Nat × List (String × Nat × Nat)
  | [], remaining, st, idx, tr => (remaining, st, idx, tr)
  | s :: rest, remaining, st, idx, tr =>
      let remaining2 := remaining.erase s
      let idx2 := idx + 1
      let tr2 := match cb with
        | some f => let _u := f s.name idx2 total; tr ++ [(s.name, idx2, total)]
        | none => tr
      let st2 := st.record (execute_step tools s st)
      run_pass tools cb total rest remaining2 st2 idx2 tr2

/-- The `while remaining:` loop of `StepExecutor.execute_all`, indexed by
fuel.  Each iteration with a non-empty ready set strictly shrinks
`remaining`, so fuel `remaining.length` is sufficient (proved below); with
sufficient fuel the fuel-zero branch is reached only at `remaining = []`,
where it agrees with the loop exit. -/
def exec_loop (tools : List ToolM) (cb : Option Callback) (total : Nat) :
    Nat → List Step → ExecutionState → Nat → List (String × Nat × Nat) →
    ExecutionState × List (String × Nat × Nat)
  | 0, _, st, _, tr => (st, tr)
  | _ + 1, [], st, _, tr => (st, tr)
  | fuel + 1, remaining@(_ :: _), st, idx, tr =>
      let ready := find_ready remaining st
      if ready.isEmpty then
        (recordBlocked remaining st, tr)
      else
        let r := run_pass tools cb total ready remaining st idx tr
        exec_loop tools cb total fuel r.1 r.2.1 r.2.2.1 r.2.2.2

/-- `StepExecutor.execute_all`: returns the final state together with the
trace of `on_step_start` calls. -/
def execute_all (tools : List ToolM) (cb : Option Callback) (steps : List Step) :
    ExecutionState × List (String × Nat × Nat) :=
  exec_loop tools cb steps.length steps.length steps {} 0 []

/- ----------------------------------------------------------------------
modules/orchestrator/decomposer.py — decomposition
---------------------------------------------------------------------- -/

/-- `TaskDecomposer._sub`: replace every "{key}" placeholder by the value,
folding over the context in insertion order. -/
def subText (text : String) (context : List (String × String)) : String :=
  context.foldl (fun t kv => t.replace ("\x7b" ++ kv.1 ++ "\x7d") kv.2) text

/-- The substitution context built by `decompose`:
`{"user_requirements": request}` updated with `vars`. -/
def decomposeContext (user_requirements : String)
    (vars : List (String × String)) : List (String × String) :=
  dictUpdate [("user_requirements", user_requirements)] vars

/-- The pure field transformation of `TaskDecomposer._substitute_step`
(applied to the deep copy): substitute into `prompt`, `path` and, when
present, `content`. -/
def substituteFields (s : Step) (context : List (String × String)) : Step :=
  { s with
    prompt := subText s.prompt context
    path := subText s.path context
    content := s.content.map (fun c => subText c context) }

/-- A heap of Python `Step` objects.  Mutation is modelled explicitly:
`copy.deepcopy` allocates a fresh cell at the end of the heap, and the field
assignments of `_substitute_step` hit only that fresh cell. -/
abbrev StepHeap := List Step

/-- The default used when dereferencing the step heap (references produced by
the source are always in range). -/
def defStep : Step := { name := "unnamed" }

/-- `TaskDecomposer._substitute_step` on the heap: deep-copy the object at
`ref`, substitute into the copy's fields, return the new heap and the
reference to the copy. -/
def substitute_step (heap : StepHeap) (ref : Nat)
    (context : List (String × String)) : StepHeap × Nat :=
  (heap ++ [substituteFields (heap.getD ref defStep) context], heap.length)

/-- `TaskDecomposer._fallback_steps`: the single synthetic step returned when
no playbook is given.  Python's `user_requirements or "..."` substitutes the
canned prompt exactly when the request is the empty string. -/
def fallback_steps (user_requirements : String) : List Step :=
  [ { name := "execute"
      tool_type := "llm"
      capability := "general"
      prompt := if user_requirements = "" then
          "Please help with the following task." else user_requirements
      output := "result" } ]

/-- `TaskDecomposer.decompose` on the heap.  A playbook is its list of step
references into the decomposer's cache heap (`None` is the fallback path,
which allocates the synthetic steps).  Returns the post-state heap and the
references handed to the caller. -/
def decompose (heap : StepHeap) (playbook : Option (List Nat))
    (user_requirements : String) (vars : List (String × String)) :
    StepHeap × List Nat :=
  match playbook with
  | none =>
      let fresh := fallback_steps user_requirements
      (heap ++ fresh, (List.range fresh.length).map (fun i => heap.length + i))
  | some refs =>
      let context := decomposeContext user_requirements vars
      refs.foldl
        (fun acc ref =>
          ((substitute_step acc.1 ref context).1,
            acc.2 ++ [(substitute_step acc.1 ref context).2]))
        (heap, [])

/-- The `Step` objects the caller of `decompose` observes: the heap cells at
the returned references. -/
def decomposeResult (heap : StepHeap) (playbook : Option (List Nat))
    (user_requirements : String) (vars : List (String × String)) : List Step :=
  let r := decompose heap playbook user_requirements vars
  r.2.map (fun ref => r.1.getD ref defStep)

/- ----------------------------------------------------------------------
modules/orchestrator/tools/llm_tool.py — cost estimation
---------------------------------------------------------------------- -/

/-- `_MODEL_COST_PER_1K` from llm_tool.py (USD per 1k tokens, as rationals:
0.009 = 9/1000 and so on). -/
def _MODEL_COST_PER_1K : List (String × ℚ) :=
  [ ("gpt-3.5-turbo", 0)
  , ("local-llama", 0)
  , ("deepseek-coder", 0)
  , ("claude-sonnet", 9 / 1000)
  , ("claude-opus", 30 / 1000)
  , ("gpt-4o", 10 / 1000)
  , ("gpt-4o-mini", 1 / 1000) ]

/-- Dict lookup with default, `_MODEL_COST_PER_1K.get(model, 0.005)` for a
(possibly `None`) model key: `None` is not a key of the table, so it takes
the default. -/
def modelRate (model : Option String) : ℚ :=
  match model with
  | none => 5 / 1000
  | some m => ((_MODEL_COST_PER_1K.find? (fun kv => kv.1 = m)).map Prod.snd).getD (5 / 1000)

/-- `self.model_hint or task.get("preferred_model", "gpt-3.5-turbo")`.
Tasks built by `Step.to_task_dict` always carry the `preferred_model` key
(possibly with value `None`), so the dict-get default is unreachable for
them; an empty-string hint is falsy and also falls through. -/
def resolvedModel (model_hint : Option String) (task : TaskDict) : Option String :=
  match model_hint with
  | some h => if h = "" then task.preferred_model else some h
  | none => task.preferred_model

/-- Helper for `wordCount`: counts maximal non-whitespace runs, carrying
whether the scan is inside a word. -/
def wordsAux : List Char → Bool → Nat
  | [], _ => 0
  | c :: cs, inWord =>
      if c.isWhitespace then wordsAux cs false
      else (if inWord then 0 else 1) + wordsAux cs true

/-- `len(prompt.split())`: Python `str.split()` splits on whitespace runs and
drops empty pieces, so the count is the number of maximal non-whitespace
runs. -/
def wordCount (s : String) : Nat :=
  wordsAux s.data false

/-- `max(len(prompt.split()) * 1.3, 200)` (the float 1.3 modelled as 13/10). -/
def tokenEstimate (prompt : String) : ℚ :=
  max ((wordCount prompt : ℚ) * (13 / 10)) 200

/-- `LLMTool.estimate_cost`. -/
def llm_estimate_cost (model_hint : Option String) (task : TaskDict) : ℚ :=
  modelRate (resolvedModel model_hint task) * (tokenEstimate task.prompt / 1000)

/- ----------------------------------------------------------------------
modules/orchestrator/synthesizer.py
---------------------------------------------------------------------- -/

/-- `SynthesisResult` dataclass. -/
structure SynthesisResult where
  success : Bool
  summary : String := ""
  artifacts : List (String × Val) := []
  total_cost : ℚ := 0
  step_count : Nat := 0
  failed_steps : List String := []
  synthesis_output : Option Val := none
  deriving DecidableEq, Repr

/-- Lexicographic code-point comparison of character lists: the order Python
uses to compare strings. -/
def leChars : List Char → List Char → Bool
  | [], _ => true
  | _ :: _, [] => false
  | a :: as, b :: bs =>
      if a.toNat < b.toNat then true
      else if b.toNat < a.toNat then false
      else leChars as bs

/-- Python string comparison `s <= t` (code-point lexicographic). -/
def pyStrLe (s t : String) : Prop := leChars s.data t.data = true

instance : DecidableRel pyStrLe :=
  fun a b => inferInstanceAs (Decidable (leChars a.data b.data = true))

/-- Python `sorted` on strings: ascending code-point order (duplicates are
equal strings, so stability is immaterial). -/
def pySorted (l : List String) : List String :=
  l.insertionSort pyStrLe

/-- Python truthiness of an optional string (`None` and `""` are falsy). -/
def truthyStr : Option String → Bool
  | none => false
  | some s => s ≠ ""

/-- Decimal rendering of a nonnegative count of ten-thousandths, zero-padded
to four fractional digits — the model of Python's `f"${x:.4f}"` formatting in
`_build_summary`. -/
def decimal4 (n : Nat) : String :=
  let frac := toString (n % 10000)
  let pad := String.mk (List.replicate (4 - frac.length) '0')
  toString (n / 10000) ++ "." ++ pad ++ frac

/-- `f"${state.total_cost:.4f}"`: the float's decimal rendering is modelled
by half-up rounding of the rational to four places. -/
def fmtCost (q : ℚ) : String :=
  if q < 0 then "-" ++ decimal4 (Int.toNat ⌊(-q) * 10000 + 1 / 2⌋)
  else decimal4 (Int.toNat ⌊q * 10000 + 1 / 2⌋)

/-- The non-internal artifact keys reported in the summary: keys of the
context that do not start with an underscore, in insertion order. -/
def artifactNames (st : ExecutionState) : List String :=
  (st.context.map Prod.fst).filter (fun k => ! k.startsWith "_")

/-- The lines assembled by `ResultSynthesizer._build_summary` (the Python
`lines` list, joined with a newline by the caller of the model). -/
def build_summary_lines (st : ExecutionState) (synthesis_output : Option Val) :
    List String :=
  (if truthyStr synthesis_output then [synthesis_output.getD "", ""] else []) ++
  [ if st.failed.length ≠ 0 then
      "WARNING: " ++ toString st.failed.length ++ " step(s) failed: " ++
        String.intercalate ", " (pySorted st.failed)
    else
      "All " ++ toString st.completed.length ++ " steps completed successfully." ] ++
  [ "Total cost: $" ++ fmtCost st.total_cost ] ++
  (if (artifactNames st).length ≠ 0 then
      [ "Artifacts: " ++ String.intercalate ", " (pySorted (artifactNames st)) ]
    else [])

/-- `ResultSynthesizer._build_summary`. -/
def build_summary (st : ExecutionState) (synthesis_output : Option Val) : String :=
  String.intercalate "\n" (build_summary_lines st synthesis_output)

/-- `ResultSynthesizer._run_synthesis`: run the synthesis step against the
final context; a raised exception or a failed result yields `None`. -/
def run_synthesis (tool : Option ToolM) (synthesis_step : Step)
    (st : ExecutionState) : Option Val :=
  match tool with
  | none => none
  | some t =>
      match t.execute synthesis_step.to_task_dict st.context with
      | .ok r => if r.success then r.output else none
      | .error _ => none

/-- `ResultSynthesizer.synthesize`. -/
def synthesize (tool : Option ToolM) (st : ExecutionState)
    (synthesis_step : Option Step) : SynthesisResult :=
  let failed := st.failed
  let all_artifacts := st.context
  let synthesis_output :=
    match synthesis_step with
    | some sst => if tool.isSome then run_synthesis tool sst st else none
    | none => none
  { success := st.successB
    summary := build_summary st synthesis_output
    artifacts := all_artifacts
    total_cost := st.total_cost
    step_count := st.outcomes.length
    failed_steps := failed
    synthesis_output := synthesis_output }

/- ----------------------------------------------------------------------
modules/orchestrator/state.py — run ledger
---------------------------------------------------------------------- -/

/-- A SQLite cell value as Python sees it. -/
inductive PyVal where
  | vnone : PyVal
  | vstr : String → PyVal
  | vint : Int → PyVal
  | vreal : ℚ → PyVal
  deriving DecidableEq, Repr

/-- Python truthiness of a cell value. -/
def PyVal.truthy : PyVal → Bool
  | .vnone => false
  | .vstr s => s ≠ ""
  | .vint n => n ≠ 0
  | .vreal q => q ≠ 0

/-- Python `a or b` on cell values. -/
def pyOr (a b : PyVal) : PyVal :=
  if a.truthy then a else b

/-- `RunRecord` dataclass from state.py. -/
structure RunRecord where
  run_id : String
  playbook : Option String
  request : String
  status : String
  total_cost : ℚ
  step_count : Int
  artifacts : List (String × String)
  summary : String
  started_at : ℚ
  finished_at : Option ℚ
  deriving DecidableEq, Repr

/-- `json.dumps({k: str(v) for ...})` for a string-valued dict (values are
already strings in this model, so `str` is the identity). -/
def jsonDumps (d : List (String × String)) : String :=
  "\x7b" ++
    String.intercalate ", "
      (d.map (fun kv => "\x22" ++ kv.1 ++ "\x22: \x22" ++ kv.2 ++ "\x22")) ++
  "\x7d"

/-- `json.loads` as used by `_row_to_record`: a non-string argument raises
`TypeError` (`none` here); of the string arguments only the empty-object
literal is ever consumed on the reachable paths, so only it is parsed. -/
def jsonLoadsObj : PyVal → Option (List (String × String))
  | .vstr s => if s = "\x7b\x7d" then some [] else none
  | _ => none

/-- A row of the `orchestration_runs` table in schema column order
(id, run_id, playbook, request, status, total_cost, step_count, artifacts,
summary, started_at, finished_at). -/
def completedRow (id : Int) (run_id : String) (playbook : Option String)
    (request status : String) (total_cost : ℚ) (step_count : Int)
    (artifacts : List (String × String)) (summary : String)
    (started_at finished_at : ℚ) : List PyVal :=
  [ .vint id, .vstr run_id,
    (match playbook with | some p => .vstr p | none => .vnone),
    .vstr request, .vstr status, .vreal total_cost, .vint step_count,
    .vstr (jsonDumps artifacts), .vstr summary,
    .vreal started_at, .vreal finished_at ]

/-- `row[i]` (sqlite rows are never index-accessed out of range by the
source on schema-shaped rows). -/
def rowGet (row : List PyVal) (i : Nat) : PyVal :=
  row.getD i .vnone

/-- A string cell. -/
def PyVal.asStr : PyVal → String
  | .vstr s => s
  | _ => ""

/-- A numeric cell as a rational. -/
def PyVal.asReal : PyVal → ℚ
  | .vreal q => q
  | .vint n => (n : ℚ)
  | _ => 0

/-- `int(row[6]) if isinstance(row[6], (int, float)) else 0` (`int()` on a
float truncates toward zero). -/
def PyVal.asIntCoerced : PyVal → Int
  | .vint n => n
  | .vreal q => q.num / q.den
  | _ => 0

/-- `OrchestrationStateStore._row_to_record`.  Note that the artifacts JSON
is taken from `row[6]`, the `step_count` column: on a truthy (non-zero)
step count `json.loads` receives an `int` and raises `TypeError`, caught
into `{}`; on a zero step count the falsy `0` falls back to the literal
`"{}"`.  The stored artifacts column `row[7]` is never read. -/
def _row_to_record (row : List PyVal) : RunRecord :=
  let artifacts_json := if row.length > 6 then rowGet row 6 else .vstr "\x7b\x7d"
  let artifacts := (jsonLoadsObj (pyOr artifacts_json (.vstr "\x7b\x7d"))).getD []
  { run_id := (rowGet row 1).asStr
    playbook := match rowGet row 2 with | .vstr p => some p | _ => none
    request := (rowGet row 3).asStr
    status := (rowGet row 4).asStr
    total_cost := (rowGet row 5).asReal
    step_count := (rowGet row 6).asIntCoerced
    artifacts := artifacts
    summary := if row.length > 8 then (pyOr (rowGet row 8) (.vstr "")).asStr else ""
    started_at := if row.length > 9 then (rowGet row 9).asReal else 0
    finished_at := if row.length > 10 then
        (match rowGet row 10 with | .vreal q => some q | _ => none) else none }

/-- `OrchestrationStateStore.get_run` applied to the stored row of a
completed run: fetch the row, convert it. -/
def get_run_of_row (row : List PyVal) : Option RunRecord :=
  some (_row_to_record row)

/- ----------------------------------------------------------------------
modules/orchestrator/core.py — OrchestratorEngine.run
---------------------------------------------------------------------- -/

/-- The control skeleton of `OrchestratorEngine.run`.  Playbook resolution
and decomposition are pure and folded into `steps`/`synthesis_step`; the two
ledger calls are passed in as fallible actions (`.error` models a raised
exception).  The source wraps neither ledger call in `try`/`except`, so both
matches propagate the error. -/
def engine_run (create_run : Except String Unit)
    (complete_run : SynthesisResult → Except String Unit)
    (tools : List ToolM) (synthesis_tool : Option ToolM) (cb : Option Callback)
    (steps : List Step) (synthesis_step : Option Step) :
    Except String SynthesisResult :=
  match create_run with
  | .error e => .error e
  | .ok _ =>
      let st := (execute_all tools cb steps).1
      let result := synthesize synthesis_tool st synthesis_step
      match complete_run result with
      | .error e => .error e
      | .ok _ => .ok result

/- ----------------------------------------------------------------------
Shared lemmas about ExecutionState.record
---------------------------------------------------------------------- -/

lemma record_total_cost (st : ExecutionState) (o : StepOutcome) :
    (st.record o).total_cost = st.total_cost + o.cost := rfl

lemma record_outcomes (st : ExecutionState) (o : StepOutcome) :
    (st.record o).outcomes = st.outcomes ++ [o] := rfl

lemma mem_completed_record {n : String} (st : ExecutionState) (o : StepOutcome)
    (h : n ∈ st.completed) : n ∈ (st.record o).completed := by
  simp only [ExecutionState.record]
  split
  · exact List.mem_insert_iff.mpr (Or.inr h)
  · exact h

lemma mem_failed_record {n : String} (st : ExecutionState) (o : StepOutcome)
    (h : n ∈ st.failed) : n ∈ (st.record o).failed := by
  simp only [ExecutionState.record]
  split
  · exact h
  · exact List.mem_insert_iff.mpr (Or.inr h)

lemma record_name_mem (st : ExecutionState) (o : StepOutcome) :
    o.step_name ∈ (st.record o).completed ∨ o.step_name ∈ (st.record o).failed := by
  simp only [ExecutionState.record]
  cases h : o.success with
  | true => exact Or.inl (by simp [h, List.mem_insert_iff])
  | false => exact Or.inr (by simp [h, List.mem_insert_iff])

/-- The running-total invariant: `total_cost` is the sum of the recorded
outcomes' costs.  `record` preserves it. -/
lemma record_cost_invariant (st : ExecutionState) (o : StepOutcome)
    (h : st.total_cost = (st.outcomes.map StepOutcome.cost).sum) :
    (st.record o).total_cost = ((st.record o).outcomes.map StepOutcome.cost).sum := by
  simp [record_total_cost, record_outcomes, h]

lemma foldl_record_total_cost (l : List StepOutcome) (st : ExecutionState) :
    (l.foldl ExecutionState.record st).total_cost
      = st.total_cost + (l.map StepOutcome.cost).sum := by
  induction l generalizing st with
  | nil => simp
  | cons o rest ih => simp [ih, record_total_cost, add_assoc]

/- ----------------------------------------------------------------------
Shared lemmas about the dispatch pass and the executor loop
---------------------------------------------------------------------- -/

lemma execute_step_name (tools : List ToolM) (s : Step) (st : ExecutionState) :
    (execute_step tools s st).step_name = s.name := by
  cases h : select_tool tools s.to_task_dict <;> simp [execute_step, h]

lemma run_pass_length_le (tools : List ToolM) (cb : Option Callback) (total : Nat) :
    ∀ (ready rem : List Step) (st : ExecutionState) (idx : Nat)
      (tr : List (String × Nat × Nat)),
      (run_pass tools cb total ready rem st idx tr).1.length ≤ rem.length := by
  intro ready
  induction ready with
  | nil => intro rem st idx tr; exact le_rfl
  | cons s rest ih =>
      intro rem st idx tr
      calc (run_pass tools cb total (s :: rest) rem st idx tr).1.length
          ≤ (rem.erase s).length := by
            simp only [run_pass]; apply ih
        _ ≤ rem.length := (List.erase_sublist s rem).length_le

lemma run_pass_length_lt (tools : List ToolM) (cb : Option Callback) (total : Nat)
    (s : Step) (rest rem : List Step) (st : ExecutionState) (idx : Nat)
    (tr : List (String × Nat × Nat)) (hs : s ∈ rem) :
    (run_pass tools cb total (s :: rest) rem st idx tr).1.length < rem.length := by
  have h1 : (run_pass tools cb total (s :: rest) rem st idx tr).1.length
      ≤ (rem.erase s).length := by
    simp only [run_pass]; apply run_pass_length_le
  have h2 : (rem.erase s).length = rem.length - 1 := List.length_erase_of_mem hs
  have h3 : 0 < rem.length := List.length_pos.mpr (List.ne_nil_of_mem hs)
  omega

lemma run_pass_mono_completed (tools : List ToolM) (cb : Option Callback) (total : Nat) :
    ∀ (ready rem : List Step) (st : ExecutionState) (idx : Nat)
      (tr : List (String × Nat × Nat)) (n : String), n ∈ st.completed →
      n ∈ (run_pass tools cb total ready rem st idx tr).2.1.completed := by
  intro ready
  induction ready with
  | nil => intro rem st idx tr n h; exact h
  | cons s rest ih =>
      intro rem st idx tr n h
      simp only [run_pass]
      exact ih _ _ _ _ n (mem_completed_record st _ h)

lemma run_pass_mono_failed (tools : List ToolM) (cb : Option Callback) (total : Nat) :
    ∀ (ready rem : List Step) (st : ExecutionState) (idx : Nat)
      (tr : List (String × Nat × Nat)) (n : String), n ∈ st.failed →
      n ∈ (run_pass tools cb total ready rem st idx tr).2.1.failed := by
  intro ready
  induction ready with
  | nil => intro rem st idx tr n h; exact h
  | cons s rest ih =>
      intro rem st idx tr n h
      simp only [run_pass]
      exact ih _ _ _ _ n (mem_failed_record st _ h)

lemma run_pass_covers (tools : List ToolM) (cb : Option Callback) (total : Nat) :
    ∀ (ready rem : List Step) (st : ExecutionState) (idx : Nat)
      (tr : List (String × Nat × Nat)) (s : Step), s ∈ rem →
      s ∈ (run_pass tools cb total ready rem st idx tr).1 ∨
      s.name ∈ (run_pass tools cb total ready rem st idx tr).2.1.completed ∨
      s.name ∈ (run_pass tools cb total ready rem st idx tr).2.1.failed := by
  intro ready
  induction ready with
  | nil => intro rem st idx tr s hs; exact Or.inl hs
  | cons r rest ih =>
      intro rem st idx tr s hs
      by_cases he : s = r
      · subst he
        right
        have hnm := record_name_mem st (execute_step tools s st)
        rw [execute_step_name] at hnm
        simp only [run_pass]
        rcases hnm with h | h
        · exact Or.inl (run_pass_mono_completed tools cb total _ _ _ _ _ _ h)
        · exact Or.inr (run_pass_mono_failed tools cb total _ _ _ _ _ _ h)
      · have : s ∈ rem.erase r := (List.mem_erase_of_ne he).mpr hs
        simp only [run_pass]
        exact ih _ _ _ _ s this

lemma run_pass_cost_invariant (tools : List ToolM) (cb : Option Callback) (total : Nat) :
    ∀ (ready rem : List Step) (st : ExecutionState) (idx : Nat)
      (tr : List (String × Nat × Nat)),
      st.total_cost = (st.outcomes.map StepOutcome.cost).sum →
      (run_pass tools cb total ready rem st idx tr).2.1.total_cost
        = ((run_pass tools cb total ready rem st idx tr).2.1.outcomes.map
            StepOutcome.cost).sum := by
  intro ready
  induction ready with
  | nil => intro rem st idx tr h; exact h
  | cons s rest ih =>
      intro rem st idx tr h
      simp only [run_pass]
      exact ih _ _ _ _ (record_cost_invariant st _ h)

/-- The remaining list, state and index computed by a pass do not depend on
the installed callback or on the trace accumulator. -/
lemma run_pass_state_ext (tools : List ToolM) (total : Nat) :
    ∀ (ready rem : List Step) (st : ExecutionState) (idx : Nat)
      (cb cb2 : Option Callback) (tr tr2 : List (String × Nat × Nat)),
      (run_pass tools cb total ready rem st idx tr).1
        = (run_pass tools cb2 total ready rem st idx tr2).1 ∧
      (run_pass tools cb total ready rem st idx tr).2.1
        = (run_pass tools cb2 total ready rem st idx tr2).2.1 ∧
      (run_pass tools cb total ready rem st idx tr).2.2.1
        = (run_pass tools cb2 total ready rem st idx tr2).2.2.1 := by
  intro ready
  induction ready with
  | nil => intro rem st idx cb cb2 tr tr2; exact ⟨rfl, rfl, rfl⟩
  | cons s rest ih =>
      intro rem st idx cb cb2 tr tr2
      simp only [run_pass]
      apply ih

lemma run_pass_trace_none (tools : List ToolM) (total : Nat) :
    ∀ (ready rem : List Step) (st : ExecutionState) (idx : Nat)
      (tr : List (String × Nat × Nat)),
      (run_pass tools none total ready rem st idx tr).2.2.2 = tr := by
  intro ready
  induction ready with
  | nil => intro rem st idx tr; rfl
  | cons s rest ih => intro rem st idx tr; simp only [run_pass]; apply ih

lemma recordBlocked_eq_foldl (rem : List Step) (st : ExecutionState) :
    recordBlocked rem st
      = (rem.map blockedOutcome).foldl ExecutionState.record st := by
  simp [recordBlocked, List.foldl_map]

lemma recordBlocked_outcomes (rem : List Step) (st : ExecutionState) :
    (recordBlocked rem st).outcomes = st.outcomes ++ rem.map blockedOutcome := by
  rw [recordBlocked_eq_foldl]
  induction rem generalizing st with
  | nil => simp
  | cons s rest ih => simp [ih, record_outcomes]

lemma recordBlocked_cons (s : Step) (rest : List Step) (st : ExecutionState) :
    recordBlocked (s :: rest) st
      = recordBlocked rest (st.record (blockedOutcome s)) := rfl

lemma recordBlocked_completed (rem : List Step) (st : ExecutionState) :
    (recordBlocked rem st).completed = st.completed := by
  induction rem generalizing st with
  | nil => rfl
  | cons s rest ih =>
      rw [recordBlocked_cons, ih]
      simp [ExecutionState.record, blockedOutcome]

lemma recordBlocked_mono_failed (rem : List Step) (st : ExecutionState)
    (n : String) (h : n ∈ st.failed) : n ∈ (recordBlocked rem st).failed := by
  induction rem generalizing st with
  | nil => exact h
  | cons s rest ih =>
      rw [recordBlocked_cons]
      exact ih _ (mem_failed_record st _ h)

lemma recordBlocked_mem_failed (rem : List Step) (st : ExecutionState)
    (s : Step) (hs : s ∈ rem) : s.name ∈ (recordBlocked rem st).failed := by
  induction rem generalizing st with
  | nil => cases hs
  | cons r rest ih =>
      rw [recordBlocked_cons]
      rcases List.mem_cons.mp hs with he | hm
      · subst he
        apply recordBlocked_mono_failed
        simp [ExecutionState.record, blockedOutcome, List.mem_insert_iff]
      · exact ih _ hm

lemma recordBlocked_cost_invariant (rem : List Step) (st : ExecutionState)
    (h : st.total_cost = (st.outcomes.map StepOutcome.cost).sum) :
    (recordBlocked rem st).total_cost
      = ((recordBlocked rem st).outcomes.map StepOutcome.cost).sum := by
  rw [recordBlocked_eq_foldl]
  induction rem generalizing st with
  | nil => exact h
  | cons s rest ih =>
      simp only [List.map_cons, List.foldl_cons]
      exact ih _ (record_cost_invariant st _ h)

lemma exec_loop_mono_completed (tools : List ToolM) (cb : Option Callback)
    (total : Nat) :
    ∀ (fuel : Nat) (rem : List Step) (st : ExecutionState) (idx : Nat)
      (tr : List (String × Nat × Nat)) (n : String), n ∈ st.completed →
      n ∈ (exec_loop tools cb total fuel rem st idx tr).1.completed := by
  intro fuel
  induction fuel with
  | zero => intro rem st idx tr n h; exact h
  | succ fuel ih =>
      intro rem st idx tr n h
      match rem with
      | [] => exact h
      | r :: rest =>
          simp only [exec_loop]
          split
          · rw [recordBlocked_completed]; exact h
          · exact ih _ _ _ _ n
              (run_pass_mono_completed tools cb total _ _ _ _ _ n h)

lemma exec_loop_mono_failed (tools : List ToolM) (cb : Option Callback)
    (total : Nat) :
    ∀ (fuel : Nat) (rem : List Step) (st : ExecutionState) (idx : Nat)
      (tr : List (String × Nat × Nat)) (n : String), n ∈ st.failed →
      n ∈ (exec_loop tools cb total fuel rem st idx tr).1.failed := by
  intro fuel
  induction fuel with
  | zero => intro rem st idx tr n h; exact h
  | succ fuel ih =>
      intro rem st idx tr n h
      match rem with
      | [] => exact h
      | r :: rest =>
          simp only [exec_loop]
          split
          · exact recordBlocked_mono_failed _ _ n h
          · exact ih _ _ _ _ n
              (run_pass_mono_failed tools cb total _ _ _ _ _ n h)

/-- Within a pass the ready set is a sublist of the remaining steps. -/
lemma find_ready_subset (rem : List Step) (st : ExecutionState) :
    ∀ s ∈ find_ready rem st, s ∈ rem := by
  intro s hs
  exact List.mem_of_mem_filter hs

/-- With fuel at least `remaining.length`, every remaining step's name ends
up in `completed` or in `failed`. -/
lemma exec_loop_covers (tools : List ToolM) (cb : Option Callback) (total : Nat) :
    ∀ (fuel : Nat) (rem : List Step) (st : ExecutionState) (idx : Nat)
      (tr : List (String × Nat × Nat)), rem.length ≤ fuel →
      ∀ s ∈ rem,
        s.name ∈ (exec_loop tools cb total fuel rem st idx tr).1.completed ∨
        s.name ∈ (exec_loop tools cb total fuel rem st idx tr).1.failed := by
  intro fuel
  induction fuel with
  | zero =>
      intro rem st idx tr hf s hs
      rw [List.length_eq_zero.mp (Nat.le_zero.mp hf)] at hs
      cases hs
  | succ fuel ih =>
      intro rem st idx tr hf s hs
      match rem, hs with
      | r :: rest, hs =>
          simp only [exec_loop]
          split
          · right
            exact recordBlocked_mem_failed _ _ s hs
          · rename_i hne
            have hhead : find_ready (r :: rest) st ≠ [] := by
              simpa [List.isEmpty_iff] using hne
            match hready : find_ready (r :: rest) st, hhead with
            | q :: qs, _ =>
                have hq : q ∈ r :: rest :=
                  find_ready_subset _ _ q (by rw [hready]; exact List.mem_cons_self q qs)
                have hlt := run_pass_length_lt tools cb total q qs (r :: rest) st idx tr hq
                rcases run_pass_covers tools cb total (q :: qs) (r :: rest) st idx tr s hs with
                  hrem | hc | hfl
                · exact ih _ _ _ _ (by omega) s hrem
                · exact Or.inl (exec_loop_mono_completed tools cb total _ _ _ _ _ _ hc)
                · exact Or.inr (exec_loop_mono_failed tools cb total _ _ _ _ _ _ hfl)

/-- The loop maintains the total-cost invariant. -/
lemma exec_loop_cost_invariant (tools : List ToolM) (cb : Option Callback)
    (total : Nat) :
    ∀ (fuel : Nat) (rem : List Step) (st : ExecutionState) (idx : Nat)
      (tr : List (String × Nat × Nat)),
      st.total_cost = (st.outcomes.map StepOutcome.cost).sum →
      (exec_loop tools cb total fuel rem st idx tr).1.total_cost
        = ((exec_loop tools cb total fuel rem st idx tr).1.outcomes.map
            StepOutcome.cost).sum := by
  intro fuel
  induction fuel with
  | zero => intro rem st idx tr h; exact h
  | succ fuel ih =>
      intro rem st idx tr h
      match rem with
      | [] => exact h
      | r :: rest =>
          simp only [exec_loop]
          split
          · exact recordBlocked_cost_invariant _ _ h
          · exact ih _ _ _ _ (run_pass_cost_invariant tools cb total _ _ _ _ _ h)

/-- Termination of the `while` loop: any fuel of at least `remaining.length`
yields the same result, i.e. the iteration reaches its exit within
`remaining.length` passes. -/
lemma exec_loop_fuel_irrel (tools : List ToolM) (cb : Option Callback)
    (total : Nat) :
    ∀ (f1 f2 : Nat) (rem : List Step) (st : ExecutionState) (idx : Nat)
      (tr : List (String × Nat × Nat)),
      rem.length ≤ f1 → rem.length ≤ f2 →
      exec_loop tools cb total f1 rem st idx tr
        = exec_loop tools cb total f2 rem st idx tr := by
  intro f1
  induction f1 with
  | zero =>
      intro f2 rem st idx tr h1 h2
      rw [List.length_eq_zero.mp (Nat.le_zero.mp h1)]
      cases f2 <;> rfl
  | succ f1 ih =>
      intro f2 rem st idx tr h1 h2
      match rem with
      | [] => cases f2 <;> rfl
      | r :: rest =>
          match f2 with
          | g + 1 =>
              simp only [exec_loop]
              split
              · rfl
              · rename_i hne
                have hhead : find_ready (r :: rest) st ≠ [] := by
                  simpa [List.isEmpty_iff] using hne
                match hready : find_ready (r :: rest) st, hhead with
                | q :: qs, _ =>
                    have hq : q ∈ r :: rest :=
                      find_ready_subset _ _ q
                        (by rw [hready]; exact List.mem_cons_self q qs)
                    have hlt :=
                      run_pass_length_lt tools cb total q qs (r :: rest) st idx tr hq
                    exact ih _ _ _ _ _ (by omega) (by omega)

/-- The final state does not depend on the installed callback (or on the
trace accumulator): the callback's return value is discarded and never feeds
back into scheduling. -/
lemma exec_loop_state_cb_irrel (tools : List ToolM) (total : Nat) :
    ∀ (fuel : Nat) (rem : List Step) (st : ExecutionState) (idx : Nat)
      (cb cb2 : Option Callback) (tr tr2 : List (String × Nat × Nat)),
      (exec_loop tools cb total fuel rem st idx tr).1
        = (exec_loop tools cb2 total fuel rem st idx tr2).1 := by
  intro fuel
  induction fuel with
  | zero => intro rem st idx cb cb2 tr tr2; rfl
  | succ fuel ih =>
      intro rem st idx cb cb2 tr tr2
      match rem with
      | [] => rfl
      | r :: rest =>
          simp only [exec_loop]
          split
          · rfl
          · obtain ⟨h1, h2, h3⟩ :=
              run_pass_state_ext tools total (find_ready (r :: rest) st)
                (r :: rest) st idx cb cb2 tr tr2
            rw [h1, h2, h3]
            apply ih

/-- The stuck-pass behaviour of the loop: when steps remain but none is
ready, the loop records a blocked failure for every remaining step and
stops. -/
lemma exec_loop_stuck (tools : List ToolM) (cb : Option Callback) (total : Nat)
    (fuel : Nat) (r : Step) (rest : List Step) (st : ExecutionState) (idx : Nat)
    (tr : List (String × Nat × Nat)) (h : find_ready (r :: rest) st = []) :
    exec_loop tools cb total (fuel + 1) (r :: rest) st idx tr
      = (recordBlocked (r :: rest) st, tr) := by
  simp only [exec_loop, h, List.isEmpty_nil, if_pos]

/-- The one-based-index, total-count shape of a callback trace. -/
def TraceIndexed (tr : List (String × Nat × Nat)) (total : Nat) : Prop :=
  ∀ i (h : i < tr.length), (tr.get ⟨i, h⟩).2.1 = i + 1 ∧ (tr.get ⟨i, h⟩).2.2 = total

lemma traceIndexed_nil (total : Nat) : TraceIndexed [] total := by
  intro i h
  cases h

lemma traceIndexed_append (tr : List (String × Nat × Nat)) (total : Nat)
    (nm : String) (h : TraceIndexed tr total) :
    TraceIndexed (tr ++ [(nm, tr.length + 1, total)]) total := by
  intro i hi
  rcases Nat.lt_or_ge i tr.length with hlt | hge
  · have := h i hlt
    rw [List.get_append _ hlt]
    exact this
  · have hlen : (tr ++ [(nm, tr.length + 1, total)]).length = tr.length + 1 := by
      simp
    have hie : i = tr.length := by omega
    subst hie
    constructor
    · simp [List.get_append_right]
    · simp [List.get_append_right]

/-- A pass with an installed callback keeps the trace invariant: entries are
`(name, oneBasedIndex, total)` and the running index stays the trace
length. -/
lemma run_pass_trace_indexed (tools : List ToolM) (f : Callback) (total : Nat) :
    ∀ (ready rem : List Step) (st : ExecutionState)
      (tr : List (String × Nat × Nat)),
      TraceIndexed tr total →
      TraceIndexed
        (run_pass tools (some f) total ready rem st tr.length tr).2.2.2 total ∧
      (run_pass tools (some f) total ready rem st tr.length tr).2.2.1
        = (run_pass tools (some f) total ready rem st tr.length tr).2.2.2.length := by
  intro ready
  induction ready with
  | nil => intro rem st tr h; exact ⟨h, rfl⟩
  | cons s rest ih =>
      intro rem st tr h
      have step : TraceIndexed (tr ++ [(s.name, tr.length + 1, total)]) total :=
        traceIndexed_append tr total s.name h
      have := ih (rem.erase s) (st.record (execute_step tools s st))
        (tr ++ [(s.name, tr.length + 1, total)]) step
      simp only [run_pass]
      simpa using this

/-- With a callback installed, the loop keeps the trace invariant. -/
lemma exec_loop_trace_indexed (tools : List ToolM) (f : Callback) (total : Nat) :
    ∀ (fuel : Nat) (rem : List Step) (st : ExecutionState)
      (tr : List (String × Nat × Nat)),
      TraceIndexed tr total →
      TraceIndexed
        (exec_loop tools (some f) total fuel rem st tr.length tr).2 total := by
  intro fuel
  induction fuel with
  | zero => intro rem st tr h; exact h
  | succ fuel ih =>
      intro rem st tr h
      match rem with
      | [] => exact h
      | r :: rest =>
          simp only [exec_loop]
          split
          · exact h
          · obtain ⟨h1, h2⟩ :=
              run_pass_trace_indexed tools f total (find_ready (r :: rest) st)
                (r :: rest) st tr h
            rw [h2]
            exact ih _ _ _ h1

/-- With a callback installed, a pass appends outcomes and trace entries in
lock step, so outcome names stay aligned with trace names. -/
lemma run_pass_outcome_names (tools : List ToolM) (f : Callback) (total : Nat) :
    ∀ (ready rem : List Step) (st : ExecutionState) (idx : Nat)
      (tr : List (String × Nat × Nat)),
      st.outcomes.map StepOutcome.step_name = tr.map (fun e => e.1) →
      (run_pass tools (some f) total ready rem st idx tr).2.1.outcomes.map
          StepOutcome.step_name
        = (run_pass tools (some f) total ready rem st idx tr).2.2.2.map
            (fun e => e.1) := by
  intro ready
  induction ready with
  | nil => intro rem st idx tr h; exact h
  | cons s rest ih =>
      intro rem st idx tr h
      simp only [run_pass]
      apply ih
      simp [record_outcomes, execute_step_name, h]

/-- With a callback installed, the final outcome list splits into the
dispatched outcomes — one per trace entry, names aligned — followed by the
blocked outcomes of a final stuck pass. -/
lemma exec_loop_outcome_split (tools : List ToolM) (f : Callback) (total : Nat) :
    ∀ (fuel : Nat) (rem : List Step) (st : ExecutionState) (idx : Nat)
      (tr : List (String × Nat × Nat)),
      st.outcomes.map StepOutcome.step_name = tr.map (fun e => e.1) →
      ∃ ex bl,
        (exec_loop tools (some f) total fuel rem st idx tr).1.outcomes
          = ex ++ bl ∧
        ex.map StepOutcome.step_name
          = (exec_loop tools (some f) total fuel rem st idx tr).2.map
              (fun e => e.1) ∧
        ∀ o ∈ bl, o.success = false ∧ o.error = some blockedError := by
  intro fuel
  induction fuel with
  | zero =>
      intro rem st idx tr h
      exact ⟨st.outcomes, [], by simp [exec_loop], h, by intro o ho; cases ho⟩
  | succ fuel ih =>
      intro rem st idx tr h
      match rem with
      | [] => exact ⟨st.outcomes, [], by simp [exec_loop], h, by intro o ho; cases ho⟩
      | r :: rest =>
          simp only [exec_loop]
          split
          · refine ⟨st.outcomes, (r :: rest).map blockedOutcome,
              recordBlocked_outcomes _ _, h, ?_⟩
            intro o ho
            rcases List.mem_map.mp ho with ⟨s, _, rfl⟩
            exact ⟨rfl, rfl⟩
          · exact ih _ _ _ _ (run_pass_outcome_names tools f total _ _ _ _ _ h)

/- ----------------------------------------------------------------------
Characterisation of Python min (first minimal element wins)
---------------------------------------------------------------------- -/

lemma foldl_min_first (f : α → ℚ) :
    ∀ (l : List α) (b : α),
      (l.foldl (fun best y => if f y < f best then y else best) b = b ∧
        ∀ y ∈ l, f b ≤ f y) ∨
      (∃ l1 r l2, l = l1 ++ r :: l2 ∧
        l.foldl (fun best y => if f y < f best then y else best) b = r ∧
        f r < f b ∧ (∀ y ∈ l1, f r < f y) ∧ (∀ y ∈ l2, f r ≤ f y)) := by
  intro l
  induction l with
  | nil => intro b; exact Or.inl ⟨rfl, by intro y hy; cases hy⟩
  | cons y ys ih =>
      intro b
      by_cases hy : f y < f b
      · rcases ih y with ⟨heq, hmin⟩ | ⟨m1, r, m2, hdec, heq, hlt, hpre, hsuf⟩
        · refine Or.inr ⟨[], y, ys, by simp, ?_, hy, (by intro z hz; cases hz), hmin⟩
          simpa [hy] using heq
        · refine Or.inr ⟨y :: m1, r, m2, by simp [hdec], ?_, lt_trans hlt hy, ?_, hsuf⟩
          · simpa [hy] using heq
          · intro z hz
            rcases List.mem_cons.mp hz with rfl | hz2
            · exact hlt
            · exact hpre z hz2
      · push_neg at hy
        rcases ih b with ⟨heq, hmin⟩ | ⟨m1, r, m2, hdec, heq, hlt, hpre, hsuf⟩
        · refine Or.inl ⟨?_, ?_⟩
          · simpa [not_lt.mpr hy] using heq
          · intro z hz
            rcases List.mem_cons.mp hz with rfl | hz2
            · exact hy
            · exact hmin z hz2
        · refine Or.inr ⟨y :: m1, r, m2, by simp [hdec], ?_, hlt, ?_, hsuf⟩
          · simpa [not_lt.mpr hy] using heq
          · intro z hz
            rcases List.mem_cons.mp hz with rfl | hz2
            · exact lt_of_lt_of_le hlt hy
            · exact hpre z hz2

/-- `pyMin` returns an occurrence of the minimum such that every element
strictly before it has a strictly larger key (the first minimum). -/
lemma pyMin_spec (f : α → ℚ) (l : List α) (t : α) (h : pyMin f l = some t) :
    ∃ l1 l2, l = l1 ++ t :: l2 ∧ (∀ u ∈ l1, f t < f u) ∧ (∀ u ∈ l2, f t ≤ f u) := by
  match l, h with
  | x :: xs, h =>
      simp only [pyMin, Option.some.injEq] at h
      rcases foldl_min_first f xs x with ⟨heq, hmin⟩ | ⟨m1, r, m2, hdec, heq, hlt, hpre, hsuf⟩
      · rw [heq] at h
        subst h
        exact ⟨[], xs, by simp, (by intro u hu; cases hu), hmin⟩
      · rw [heq] at h
        subst h
        refine ⟨x :: m1, m2, by simp [hdec], ?_, hsuf⟩
        intro u hu
        rcases List.mem_cons.mp hu with rfl | hu2
        · exact hlt
        · exact hpre u hu2

lemma pyMin_none_iff (f : α → ℚ) (l : List α) : pyMin f l = none ↔ l = [] := by
  cases l <;> simp [pyMin]

/- ----------------------------------------------------------------------
Order lemmas for the Python string comparison
---------------------------------------------------------------------- -/

lemma leChars_total : ∀ x y : List Char, leChars x y = true ∨ leChars y x = true := by
  intro x
  induction x with
  | nil => intro y; exact Or.inl rfl
  | cons a as ih =>
      intro y
      match y with
      | [] => exact Or.inr rfl
      | b :: bs =>
          rcases Nat.lt_trichotomy a.toNat b.toNat with h | h | h
          · left; simp [leChars, h]
          · rcases ih bs with h2 | h2
            · left; simp [leChars, h, h2]
            · right; simp [leChars, h.symm, h2]
          · right; simp [leChars, h]

lemma leChars_trans : ∀ x y z : List Char,
    leChars x y = true → leChars y z = true → leChars x z = true := by
  intro x
  induction x with
  | nil => intro y z _ _; rfl
  | cons a as ih =>
      intro y z hxy hyz
      match y, z with
      | [], _ => simp [leChars] at hxy
      | _ :: _, [] => simp [leChars] at hyz
      | b :: bs, c :: cs =>
          rcases Nat.lt_trichotomy a.toNat b.toNat with h1 | h1 | h1
          · rcases Nat.lt_trichotomy b.toNat c.toNat with h2 | h2 | h2
            · have h3 : a.toNat < c.toNat := lt_trans h1 h2
              simp [leChars, h3]
            · have h3 : a.toNat < c.toNat := h2 ▸ h1
              simp [leChars, h3]
            · simp [leChars, Nat.lt_asymm h2, h2] at hyz
          · rcases Nat.lt_trichotomy b.toNat c.toNat with h2 | h2 | h2
            · have h3 : a.toNat < c.toNat := h1 ▸ h2
              simp [leChars, h3]
            · have h3 : a.toNat = c.toNat := h1.trans h2
              simp [leChars, Nat.lt_irrefl, h1] at hxy
              simp [leChars, Nat.lt_irrefl, h2] at hyz
              simp [leChars, h3, Nat.lt_irrefl]
              exact ih bs cs hxy hyz
            · simp [leChars, Nat.lt_asymm h2, h2] at hyz
          · simp [leChars, Nat.lt_asymm h1, h1] at hxy

instance : IsTotal String pyStrLe := ⟨fun a b => leChars_total a.data b.data⟩

instance : IsTrans String pyStrLe := ⟨fun a b c => leChars_trans a.data b.data c.data⟩

lemma mem_pySorted (l : List String) (a : String) : a ∈ pySorted l ↔ a ∈ l :=
  (List.perm_insertionSort pyStrLe l).mem_iff

lemma sorted_pySorted (l : List String) : List.Sorted pyStrLe (pySorted l) :=
  List.sorted_insertionSort pyStrLe l

/- ----------------------------------------------------------------------
Heap lemmas for the decomposer
---------------------------------------------------------------------- -/

/-- The playbook branch of `decompose` only ever appends to the heap. -/
lemma decompose_fold_frame (ctx : List (String × String)) :
    ∀ (refs : List Nat) (h : StepHeap) (acc : List Nat),
      ∃ t2,
        (refs.foldl
          (fun acc ref =>
            ((substitute_step acc.1 ref ctx).1,
              acc.2 ++ [(substitute_step acc.1 ref ctx).2])) (h, acc)).1
          = h ++ t2 := by
  intro refs
  induction refs with
  | nil => intro h acc; exact ⟨[], by simp⟩
  | cons ref rest ih =>
      intro h acc
      obtain ⟨t2, ht⟩ := ih (h ++ [substituteFields (h.getD ref defStep) ctx])
        (acc ++ [h.length])
      exact ⟨[substituteFields (h.getD ref defStep) ctx] ++ t2, by
        simpa [substitute_step, List.append_assoc] using ht⟩

/-- Full specification of the playbook branch's fold: starting from the
original heap `h0` extended by `t`, it appends fresh cells holding the
substituted copies of the original cells and hands back their references. -/
lemma decompose_fold_spec (ctx : List (String × String)) :
    ∀ (refs : List Nat) (h0 t : StepHeap) (acc : List Nat),
      (∀ r ∈ refs, r < h0.length) →
      ∃ t2 news,
        (refs.foldl
          (fun acc ref =>
            ((substitute_step acc.1 ref ctx).1,
              acc.2 ++ [(substitute_step acc.1 ref ctx).2])) (h0 ++ t, acc))
          = (h0 ++ t ++ t2, acc ++ news) ∧
        news.map (fun ref => (h0 ++ t ++ t2).getD ref defStep)
          = refs.map (fun ref => substituteFields (h0.getD ref defStep) ctx) := by
  intro refs
  induction refs with
  | nil =>
      intro h0 t acc _
      exact ⟨[], [], by simp, by simp⟩
  | cons ref rest ih =>
      intro h0 t acc hvalid
      have href : ref < h0.length := hvalid ref (List.mem_cons_self ref rest)
      have hget : (h0 ++ t).getD ref defStep = h0.getD ref defStep :=
        List.getD_append _ _ _ _ href
      obtain ⟨t2, news, heq, hvals⟩ :=
        ih h0 (t ++ [substituteFields (h0.getD ref defStep) ctx])
          (acc ++ [(h0 ++ t).length])
          (fun r hr => hvalid r (List.mem_cons_of_mem ref hr))
      refine ⟨[substituteFields (h0.getD ref defStep) ctx] ++ t2,
        (h0 ++ t).length :: news, ?_, ?_⟩
      · simp only [List.foldl_cons, substitute_step, hget]
        simpa [substitute_step, List.append_assoc] using heq
      · simp only [List.map_cons]
        congr 1
        · rw [show h0 ++ t ++ ([substituteFields (h0.getD ref defStep) ctx] ++ t2)
                = (h0 ++ t) ++ ([substituteFields (h0.getD ref defStep) ctx] ++ t2) by
              simp [List.append_assoc]]
          rw [List.getD_append_right _ _ _ _ (le_refl (h0 ++ t).length)]
          simp
        · rw [show h0 ++ t ++ ([substituteFields (h0.getD ref defStep) ctx] ++ t2)
                = h0 ++ (t ++ [substituteFields (h0.getD ref defStep) ctx]) ++ t2 by
              simp [List.append_assoc]]
          exact hvals

/-- What the caller of `decompose` observes on the playbook path: substituted
copies of the original templates. -/
lemma decomposeResult_spec (heap : StepHeap) (refs : List Nat)
    (req : String) (vars : List (String × String))
    (hvalid : ∀ r ∈ refs, r < heap.length) :
    decomposeResult heap (some refs) req vars
      = refs.map (fun r =>
          substituteFields (heap.getD r defStep) (decomposeContext req vars)) := by
  obtain ⟨t2, news, heq, hvals⟩ :=
    decompose_fold_spec (decomposeContext req vars) refs heap [] [] hvalid
  simp only [List.append_nil, List.nil_append] at heq hvals
  simp only [decomposeResult, decompose]
  rw [heq]
  simpa using hvals

/-- Without a callback the loop makes no `on_step_start` calls. -/
lemma exec_loop_trace_none (tools : List ToolM) (total : Nat) :
    ∀ (fuel : Nat) (rem : List Step) (st : ExecutionState) (idx : Nat)
      (tr : List (String × Nat × Nat)),
      (exec_loop tools none total fuel rem st idx tr).2 = tr := by
  intro fuel
  induction fuel with
  | zero => intro rem st idx tr; rfl
  | succ fuel ih =>
      intro rem st idx tr
      match rem with
      | [] => rfl
      | r :: rest =>
          simp only [exec_loop]
          split
          · rfl
          · rw [ih, run_pass_trace_none]

/-- The form of `execute_all` as the loop at fuel `steps.length`. -/
lemma execute_all_def (tools : List ToolM) (cb : Option Callback) (steps : List Step) :
    execute_all tools cb steps
      = exec_loop tools cb steps.length steps.length steps {} 0 [] := rfl

/- ----------------------------------------------------------------------
Concrete fixtures used by witnesses and counterexamples
---------------------------------------------------------------------- -/

/-- A tool that claims every task, is free, and succeeds with a fixed
artifact under the task's output key. -/
def wOkTool : ToolM :=
  { can_handle := fun _ => true
    estimate_cost := fun _ => 0
    execute := fun t _ =>
      .ok { success := true, output := some "out", artifacts := [(t.output, "out")] } }

/-- A cheap capable tool (cost 1), distinguishable by its output. -/
def wCheapTool : ToolM :=
  { can_handle := fun _ => true
    estimate_cost := fun _ => 1
    execute := fun _ _ => .ok { success := true, output := some "cheap" } }

/-- A second capable tool with the same cost (cost 1). -/
def wTieTool : ToolM :=
  { can_handle := fun _ => true
    estimate_cost := fun _ => 1
    execute := fun _ _ => .ok { success := true, output := some "tie" } }

/-- An expensive capable tool (cost 2). -/
def wDearTool : ToolM :=
  { can_handle := fun _ => true
    estimate_cost := fun _ => 2
    execute := fun _ _ => .ok { success := true, output := some "dear" } }

/-- First half of a two-step dependency cycle. -/
def cycleA : Step := { name := "A", depends_on := ["B"] }

/-- Second half of a two-step dependency cycle. -/
def cycleB : Step := { name := "B", depends_on := ["A"] }

/-- A plain independent step. -/
def stepX : Step := { name := "x" }

/-- A step depending on `stepX`. -/
def stepY : Step := { name := "y", depends_on := ["x"] }

/-- A state with one failed step and one internal artifact, for the witness
of the synthesizer claim. -/
def w9State : ExecutionState :=
  { failed := ["b"], context := [("_h", "1"), ("a", "2")] }

/- ----------------------------------------------------------------------
Claim theorems
---------------------------------------------------------------------- -/

/-- Claim C1: for every finite list of steps (cycles and failing
dependencies included) `execute_all` terminates — any fuel of at least
`steps.length` computes the same final state, so the while loop exits within
that many passes — and every input step's name ends up in `completed` or in
`failed`; moreover, whenever the ready set is empty while steps remain,
every remaining step is recorded as a failed outcome carrying the explicit
blocked / circular-dependency error and the loop stops. -/
theorem C1_execute_all_total_coverage :
    (∀ (tools : List ToolM) (cb : Option Callback) (steps : List Step),
        ∀ s ∈ steps,
          s.name ∈ (execute_all tools cb steps).1.completed ∨
          s.name ∈ (execute_all tools cb steps).1.failed) ∧
    (∀ (tools : List ToolM) (cb : Option Callback) (steps : List Step) (fuel : Nat),
        steps.length ≤ fuel →
        exec_loop tools cb steps.length fuel steps {} 0 []
          = execute_all tools cb steps) ∧
    (∀ (tools : List ToolM) (cb : Option Callback) (total fuel : Nat)
        (r : Step) (rest : List Step) (st : ExecutionState) (idx : Nat)
        (tr : List (String × Nat × Nat)),
        find_ready (r :: rest) st = [] →
        exec_loop tools cb total (fuel + 1) (r :: rest) st idx tr
            = (recordBlocked (r :: rest) st, tr) ∧
        ∀ s ∈ r :: rest,
          ∃ o ∈ (recordBlocked (r :: rest) st).outcomes,
            o.step_name = s.name ∧ o.success = false ∧ o.error = some blockedError) := by
  refine ⟨?_, ?_, ?_⟩
  · intro tools cb steps s hs
    rw [execute_all_def]
    exact exec_loop_covers tools cb steps.length steps.length steps {} 0 [] le_rfl s hs
  · intro tools cb steps fuel hf
    rw [execute_all_def]
    exact exec_loop_fuel_irrel tools cb steps.length fuel steps.length steps {} 0 [] hf le_rfl
  · intro tools cb total fuel r rest st idx tr hready
    refine ⟨exec_loop_stuck tools cb total fuel r rest st idx tr hready, ?_⟩
    intro s hs
    refine ⟨blockedOutcome s, ?_, rfl, rfl, rfl⟩
    rw [recordBlocked_outcomes]
    exact List.mem_append_right _ (List.mem_map_of_mem blockedOutcome hs)

/-- Witness for C1 on the two-step cycle A↔B: both names end failed, fuel
beyond the minimum changes nothing, and the stuck pass records both blocked
outcomes. -/
theorem C1_witness :
    (cycleA.name ∈ (execute_all [wOkTool] none [cycleA, cycleB]).1.completed ∨
      cycleA.name ∈ (execute_all [wOkTool] none [cycleA, cycleB]).1.failed) ∧
    exec_loop [wOkTool] none 2 7 [cycleA, cycleB] {} 0 []
      = execute_all [wOkTool] none [cycleA, cycleB] ∧
    exec_loop [wOkTool] none 2 1 [cycleA, cycleB] {} 0 []
      = (recordBlocked [cycleA, cycleB] {}, []) := by
  refine ⟨?_, ?_, ?_⟩
  · exact C1_execute_all_total_coverage.1 [wOkTool] none [cycleA, cycleB] cycleA
      (List.mem_cons_self _ _)
  · exact C1_execute_all_total_coverage.2.1 [wOkTool] none [cycleA, cycleB] 7
      (by decide)
  · exact (C1_execute_all_total_coverage.2.2 [wOkTool] none 2 0 cycleA [cycleB]
      {} 0 [] (by decide)).1

/-- Claim C2: the scheduler dispatches each step to a tool whose
`can_handle` is true and whose `estimate_cost` is minimal among the capable
tools, ties broken by registration order (any capable tool registered
strictly earlier costs strictly more); when no registered tool is capable,
the step is recorded as an immediate failure naming the unmet capability. -/
theorem C2_select_tool_cheapest_capable :
    ∀ (tools : List ToolM) (task : TaskDict),
      (select_tool tools task = none ↔
        tools.filter (fun t => t.can_handle task) = []) ∧
      (∀ t, select_tool tools task = some t →
        ∃ l1 l2,
          tools.filter (fun t => t.can_handle task) = l1 ++ t :: l2 ∧
          t.can_handle task = true ∧ t ∈ tools ∧
          (∀ u ∈ tools, u.can_handle task = true →
            t.estimate_cost task ≤ u.estimate_cost task) ∧
          (∀ u ∈ l1, t.estimate_cost task < u.estimate_cost task) ∧
          (∀ u ∈ l2, t.estimate_cost task ≤ u.estimate_cost task)) ∧
      (∀ (s : Step) (st : ExecutionState),
        select_tool tools s.to_task_dict = none →
        execute_step tools s st
          = { step_name := s.name, success := false, error := some (noToolError s) }) := by
  intro tools task
  refine ⟨?_, ?_, ?_⟩
  · exact pyMin_none_iff _ _
  · intro t ht
    have ht2 : pyMin (fun t => t.estimate_cost task)
        (tools.filter (fun t => t.can_handle task)) = some t := ht
    obtain ⟨l1, l2, hdec, hpre, hsuf⟩ :=
      pyMin_spec (fun t => t.estimate_cost task) _ t ht2
    have htmem : t ∈ tools.filter (fun t => t.can_handle task) := by
      rw [hdec]; exact List.mem_append_right _ (List.mem_cons_self t l2)
    have hcap : t.can_handle task = true := (List.mem_filter.mp htmem).2
    refine ⟨l1, l2, hdec, hcap, (List.mem_filter.mp htmem).1, ?_, hpre, hsuf⟩
    intro u hu hcu
    have humem : u ∈ tools.filter (fun t => t.can_handle task) :=
      List.mem_filter.mpr ⟨hu, hcu⟩
    rw [hdec] at humem
    rcases List.mem_append.mp humem with h1 | h2
    · exact le_of_lt (hpre u h1)
    · rcases List.mem_cons.mp h2 with rfl | h3
      · exact le_rfl
      · exact hsuf u h3
  · intro s st hnone
    simp [execute_step, hnone]

/-- Witness for C2: with an expensive tool registered first and two equal
cheaper tools after it, the first-registered of the cheap pair is selected;
with no tools, a step fails naming its capability. -/
theorem C2_witness :
    (∃ l1 l2,
      [wDearTool, wCheapTool, wTieTool].filter
          (fun t => t.can_handle stepX.to_task_dict) = l1 ++ wCheapTool :: l2 ∧
      wCheapTool.can_handle stepX.to_task_dict = true ∧
      wCheapTool ∈ [wDearTool, wCheapTool, wTieTool] ∧
      (∀ u ∈ [wDearTool, wCheapTool, wTieTool], u.can_handle stepX.to_task_dict = true →
        wCheapTool.estimate_cost stepX.to_task_dict ≤ u.estimate_cost stepX.to_task_dict) ∧
      (∀ u ∈ l1, wCheapTool.estimate_cost stepX.to_task_dict < u.estimate_cost stepX.to_task_dict) ∧
      (∀ u ∈ l2, wCheapTool.estimate_cost stepX.to_task_dict ≤ u.estimate_cost stepX.to_task_dict)) ∧
    execute_step [] stepX {}
      = { step_name := stepX.name, success := false, error := some (noToolError stepX) } := by
  constructor
  · exact (C2_select_tool_cheapest_capable [wDearTool, wCheapTool, wTieTool]
      stepX.to_task_dict).2.1 wCheapTool rfl
  · exact (C2_select_tool_cheapest_capable [] stepX.to_task_dict).2.2 stepX {} rfl

/-- Claim C3: `record` adds exactly the outcome's cost to the running total
(success or failure alike), the total is monotonically non-decreasing for
non-negative outcome costs, a sequence of `record` calls adds exactly the
sum of the costs, and the final state of any run has `total_cost` equal to
the sum of all its recorded outcomes' costs. -/
theorem C3_total_cost_is_exact_sum :
    (∀ (st : ExecutionState) (o : StepOutcome),
        (st.record o).total_cost = st.total_cost + o.cost) ∧
    (∀ (st : ExecutionState) (o : StepOutcome), 0 ≤ o.cost →
        st.total_cost ≤ (st.record o).total_cost) ∧
    (∀ (outs : List StepOutcome) (st : ExecutionState),
        (outs.foldl ExecutionState.record st).total_cost
          = st.total_cost + (outs.map StepOutcome.cost).sum) ∧
    (∀ (tools : List ToolM) (cb : Option Callback) (steps : List Step),
        (execute_all tools cb steps).1.total_cost
          = ((execute_all tools cb steps).1.outcomes.map StepOutcome.cost).sum) := by
  refine ⟨record_total_cost, ?_, foldl_record_total_cost, ?_⟩
  · intro st o h
    rw [record_total_cost]
    exact le_add_of_nonneg_right h
  · intro tools cb steps
    rw [execute_all_def]
    exact exec_loop_cost_invariant tools cb steps.length steps.length steps {} 0 []
      (by simp)

/-- Witness for C3 on a concrete failed outcome with positive cost. -/
theorem C3_witness :
    ({ total_cost := 1 : ExecutionState}.record
        { step_name := "s", success := false, cost := 1 / 2 }).total_cost
      = 1 + 1 / 2 ∧
    ({ total_cost := 1 : ExecutionState} : ExecutionState).total_cost
      ≤ ({ total_cost := 1 : ExecutionState}.record
          { step_name := "s", success := false, cost := 1 / 2 }).total_cost := by
  constructor
  · exact C3_total_cost_is_exact_sum.1 _ _
  · exact C3_total_cost_is_exact_sum.2.1 _ _ (by norm_num)

/-- Claim C4: `decompose` returns fresh substituted copies of the playbook's
step templates; the stored templates (the heap cells the playbook references)
are unchanged, and a second decomposition with different variables again
substitutes into the original templates, not into the first run's copies. -/
theorem C4_decompose_is_copy_on_use :
    ∀ (heap : StepHeap) (refs : List Nat) (req1 req2 : String)
      (vars1 vars2 : List (String × String)),
      (∀ r ∈ refs, r < heap.length) →
      (∀ i, i < heap.length →
        ((decompose heap (some refs) req1 vars1).1).getD i defStep
          = heap.getD i defStep) ∧
      decomposeResult heap (some refs) req1 vars1
        = refs.map (fun r =>
            substituteFields (heap.getD r defStep) (decomposeContext req1 vars1)) ∧
      decomposeResult ((decompose heap (some refs) req1 vars1).1) (some refs) req2 vars2
        = refs.map (fun r =>
            substituteFields (heap.getD r defStep) (decomposeContext req2 vars2)) := by
  intro heap refs req1 req2 vars1 vars2 hvalid
  obtain ⟨t2, hframe⟩ :=
    decompose_fold_frame (decomposeContext req1 vars1) refs heap []
  have hheap1 : (decompose heap (some refs) req1 vars1).1 = heap ++ t2 := hframe
  refine ⟨?_, decomposeResult_spec heap refs req1 vars1 hvalid, ?_⟩
  · intro i hi
    rw [hheap1]
    exact List.getD_append _ _ _ _ hi
  · rw [hheap1]
    have hvalid2 : ∀ r ∈ refs, r < (heap ++ t2).length := by
      intro r hr
      have := hvalid r hr
      simp only [List.length_append]
      omega
    rw [decomposeResult_spec (heap ++ t2) refs req2 vars2 hvalid2]
    apply List.map_congr_left
    intro r hr
    rw [List.getD_append _ _ _ _ (hvalid r hr)]

/-- Witness for C4 on a one-template heap: both decompositions substitute
the original template, which is unchanged in the heap afterwards. -/
theorem C4_witness :
    (∀ i, i < [{ name := "greet", prompt := "Hi \x7bwho\x7d" : Step}].length →
      ((decompose [{ name := "greet", prompt := "Hi \x7bwho\x7d" : Step}] (some [0])
          "r1" [("who", "Ann")]).1).getD i defStep
        = [{ name := "greet", prompt := "Hi \x7bwho\x7d" : Step}].getD i defStep) ∧
    decomposeResult [{ name := "greet", prompt := "Hi \x7bwho\x7d" : Step}] (some [0])
        "r1" [("who", "Ann")]
      = [0].map (fun r =>
          substituteFields
            ([{ name := "greet", prompt := "Hi \x7bwho\x7d" : Step}].getD r defStep)
            (decomposeContext "r1" [("who", "Ann")])) ∧
    decomposeResult
        ((decompose [{ name := "greet", prompt := "Hi \x7bwho\x7d" : Step}] (some [0])
          "r1" [("who", "Ann")]).1) (some [0]) "r2" [("who", "Bob")]
      = [0].map (fun r =>
          substituteFields
            ([{ name := "greet", prompt := "Hi \x7bwho\x7d" : Step}].getD r defStep)
            (decomposeContext "r2" [("who", "Bob")])) :=
  C4_decompose_is_copy_on_use [{ name := "greet", prompt := "Hi \x7bwho\x7d" : Step}]
    [0] "r1" "r2" [("who", "Ann")] [("who", "Bob")] (by decide)

/-- Claim C5 (amended): with a callback installed, `on_step_start` is called
with `(stepName, oneBasedIndex, totalStepCount)` immediately before each
dispatched step — including steps that then fail for lack of a capable tool
or through tool failure — and the recorded outcomes are exactly those
dispatched steps, in callback order, followed by blocked outcomes of a final
stuck pass, which receive no start callback; the final state is identical
with any callback and with none, and without a callback no call is made. -/
theorem C5_progress_callback_amended :
    (∀ (tools : List ToolM) (f : Callback) (steps : List Step),
        TraceIndexed (execute_all tools (some f) steps).2 steps.length) ∧
    (∀ (tools : List ToolM) (f : Callback) (steps : List Step),
        ∃ ex bl,
          (execute_all tools (some f) steps).1.outcomes = ex ++ bl ∧
          ex.map StepOutcome.step_name
            = (execute_all tools (some f) steps).2.map (fun e => e.1) ∧
          ∀ o ∈ bl, o.success = false ∧ o.error = some blockedError) ∧
    (∀ (tools : List ToolM) (cb : Option Callback) (steps : List Step),
        (execute_all tools cb steps).1 = (execute_all tools none steps).1) ∧
    (∀ (tools : List ToolM) (steps : List Step),
        (execute_all tools none steps).2 = []) := by
  refine ⟨?_, ?_, ?_, ?_⟩
  · intro tools f steps
    rw [execute_all_def]
    exact exec_loop_trace_indexed tools f steps.length steps.length steps {} []
      (traceIndexed_nil _)
  · intro tools f steps
    rw [execute_all_def]
    exact exec_loop_outcome_split tools f steps.length steps.length steps {} 0 []
      (by simp)
  · intro tools cb steps
    rw [execute_all_def, execute_all_def]
    exact exec_loop_state_cb_irrel tools steps.length steps.length steps {} 0 cb
      none [] []
  · intro tools steps
    rw [execute_all_def]
    exact exec_loop_trace_none tools steps.length steps.length steps {} 0 []

/-- Witness for C5: on a two-step dependent run both steps get a start
call, with indices 1 and 2 out of 2. -/
theorem C5_witness :
    (execute_all [wOkTool] (some (fun _ _ _ => ())) [stepX, stepY]).2
      = [("x", 1, 2), ("y", 2, 2)] ∧
    ((execute_all [wOkTool] (some (fun _ _ _ => ())) [stepX, stepY]).2.get
        ⟨0, by decide⟩).2.1 = 0 + 1 := by
  constructor
  · decide
  · exact (C5_progress_callback_amended.1 [wOkTool] (fun _ _ _ => ())
      [stepX, stepY] 0 (by decide)).1

/-- Counterexample to claim C5 as stated: in the two-step cycle both steps
belong to the run and are recorded as failed, yet no `on_step_start` call is
ever made — blocked steps never "begin", so the callback does not fire for
them. -/
theorem C5_counterexample :
    (execute_all [wOkTool] (some (fun _ _ _ => ())) [cycleA, cycleB]).2 = [] ∧
    cycleA.name ∈ (execute_all [wOkTool] (some (fun _ _ _ => ())) [cycleA, cycleB]).1.failed ∧
    cycleB.name ∈ (execute_all [wOkTool] (some (fun _ _ _ => ())) [cycleA, cycleB]).1.failed := by
  refine ⟨by decide, by decide, by decide⟩

/-- Claim C6 (amended): `OrchestratorEngine.run` wraps neither ledger call in
an exception handler, so a failure raised by `create_run` or `complete_run`
propagates out of `run` (the run raises instead of returning its result);
only when both ledger calls succeed does `run` return the synthesized
result, whose success flag reflects the execution state alone. -/
theorem C6_ledger_failures_propagate :
    ∀ (cr : Except String Unit) (comp : SynthesisResult → Except String Unit)
      (tools : List ToolM) (stool : Option ToolM) (cb : Option Callback)
      (steps : List Step) (sst : Option Step),
      (∀ e, cr = .error e →
        engine_run cr comp tools stool cb steps sst = .error e) ∧
      (cr = .ok () →
        (∀ e, comp (synthesize stool (execute_all tools cb steps).1 sst) = .error e →
          engine_run cr comp tools stool cb steps sst = .error e) ∧
        (comp (synthesize stool (execute_all tools cb steps).1 sst) = .ok () →
          engine_run cr comp tools stool cb steps sst
            = .ok (synthesize stool (execute_all tools cb steps).1 sst) ∧
          (synthesize stool (execute_all tools cb steps).1 sst).success
            = ((execute_all tools cb steps).1.failed.length = 0 : Bool))) := by
  intro cr comp tools stool cb steps sst
  refine ⟨?_, ?_⟩
  · intro e he
    subst he
    rfl
  · intro hok
    subst hok
    refine ⟨?_, ?_⟩
    · intro e he
      simp [engine_run, he]
    · intro hcomp
      refine ⟨by simp [engine_run, hcomp], rfl⟩

/-- Witness for C6: a concrete failing `create_run` makes the whole run
raise even though every step and the (absent) synthesis succeed. -/
theorem C6_witness :
    engine_run (.error "sqlite: disk full") (fun _ => .ok ()) [wOkTool] none none
        [stepX] none
      = .error "sqlite: disk full" :=
  (C6_ledger_failures_propagate (.error "sqlite: disk full") (fun _ => .ok ())
    [wOkTool] none none [stepX] none).1 "sqlite: disk full" rfl

/-- Counterexample to claim C6 as stated: with all steps succeeding, a
raising `complete_run` escapes `run` — the caller sees the exception, not a
`SynthesisResult` with `success = true`. -/
theorem C6_counterexample :
    engine_run (.ok ()) (fun _ => .error "sqlite: database is locked")
        [wOkTool] none none [stepX] none
      = .error "sqlite: database is locked" ∧
    ((execute_all [wOkTool] none [stepX]).1.failed.length = 0) := by
  constructor
  · rfl
  · decide

/-- Claim C7 (amended): `LLMTool.estimate_cost` is the token estimate of the
task's prompt (at least 200) times the per-1000-token rate of the resolved
hinted/preferred model; models whose table rate is 0 cost 0, but a model
absent from the rate table — including an unresolved `None` — is charged the
default rate 0.005 per 1000 tokens, giving a strictly positive estimate. -/
theorem C7_estimate_cost_rates :
    ∀ (hint : Option String) (task : TaskDict),
      llm_estimate_cost hint task
        = modelRate (resolvedModel hint task) * (tokenEstimate task.prompt / 1000) ∧
      (∀ m, resolvedModel hint task = some m →
        (_MODEL_COST_PER_1K.find? (fun kv => kv.1 = m)).map Prod.snd = some 0 →
        llm_estimate_cost hint task = 0) ∧
      (∀ m, resolvedModel hint task = some m →
        _MODEL_COST_PER_1K.find? (fun kv => kv.1 = m) = none →
        llm_estimate_cost hint task
            = (5 / 1000) * (tokenEstimate task.prompt / 1000) ∧
        0 < llm_estimate_cost hint task) ∧
      (resolvedModel hint task = none →
        llm_estimate_cost hint task
          = (5 / 1000) * (tokenEstimate task.prompt / 1000)) := by
  intro hint task
  have htok : (200 : ℚ) ≤ tokenEstimate task.prompt := le_max_right _ _
  refine ⟨rfl, ?_, ?_, ?_⟩
  · intro m hm hrate
    simp [llm_estimate_cost, hm, modelRate, hrate]
  · intro m hm hnone
    have hrate : modelRate (some m) = 5 / 1000 := by
      simp [modelRate, hnone]
    constructor
    · simp [llm_estimate_cost, hm, hrate]
    · have : (0 : ℚ) < tokenEstimate task.prompt := lt_of_lt_of_le (by norm_num) htok
      simp only [llm_estimate_cost, hm, hrate]
      positivity
  · intro hm
    simp [llm_estimate_cost, hm, modelRate]

/-- Witness for C7: a free table model costs 0; a model missing from the
table costs the default rate times the token estimate. -/
theorem C7_witness :
    llm_estimate_cost (some "local-llama") stepX.to_task_dict = 0 ∧
    llm_estimate_cost (some "no-such-model") stepX.to_task_dict
      = (5 / 1000) * (tokenEstimate stepX.to_task_dict.prompt / 1000) := by
  constructor
  · exact (C7_estimate_cost_rates (some "local-llama") stepX.to_task_dict).2.1
      "local-llama" rfl (by decide)
  · exact ((C7_estimate_cost_rates (some "no-such-model") stepX.to_task_dict).2.2.1
      "no-such-model" rfl (by decide)).1

/-- Counterexample to claim C7 as stated: a model that is not in the rate
table does not cost 0 — the default LLM tool (no hint) on a default step
(`preferred_model = None`, empty prompt) is charged
0.005 × 200 / 1000 = 0.001. -/
theorem C7_counterexample :
    llm_estimate_cost none stepX.to_task_dict = 1 / 1000 ∧
    ((1 : ℚ) / 1000) ≠ 0 := by
  constructor
  · have htok : tokenEstimate stepX.to_task_dict.prompt = 200 := by
      have hw : wordCount stepX.to_task_dict.prompt = 0 := rfl
      rw [tokenEstimate, hw]
      norm_num
    have hmodel : resolvedModel none stepX.to_task_dict = none := rfl
    show modelRate (resolvedModel none stepX.to_task_dict)
        * (tokenEstimate stepX.to_task_dict.prompt / 1000) = 1 / 1000
    rw [hmodel, htok]
    show (5 : ℚ) / 1000 * (200 / 1000) = 1 / 1000
    norm_num
  · norm_num

/-- Claim C8 (amended): decomposing with a null playbook yields exactly the
single synthetic fallback step, with capability "general", the fixed output
key "result" and the LLM tool type; its prompt is the request verbatim for a
non-empty request, and the canned help text when the request is empty. -/
theorem C8_null_playbook_fallback :
    ∀ (heap : StepHeap) (req : String) (vars : List (String × String)),
      decomposeResult heap none req vars = fallback_steps req ∧
      (fallback_steps req).length = 1 ∧
      ∀ s ∈ fallback_steps req,
        s.capability = "general" ∧ s.output = "result" ∧ s.tool_type = "llm" ∧
        (req ≠ "" → s.prompt = req) ∧
        (req = "" → s.prompt = "Please help with the following task.") := by
  intro heap req vars
  refine ⟨?_, rfl, ?_⟩
  · simp [decomposeResult, decompose, fallback_steps, List.range_succ,
      List.getD_append_right]
  · intro s hs
    have hone : s = (fallback_steps req).head (by simp [fallback_steps]) := by
      simp only [fallback_steps] at hs ⊢
      rcases List.mem_singleton.mp hs with rfl
      rfl
    subst hone
    refine ⟨rfl, rfl, rfl, ?_, ?_⟩
    · intro hne
      simp [fallback_steps, hne]
    · intro he
      simp [fallback_steps, he]

/-- Witness for C8 on a non-empty request. -/
theorem C8_witness :
    decomposeResult [] none "Build a REST API" [] = fallback_steps "Build a REST API" ∧
    ∀ s ∈ fallback_steps "Build a REST API", s.prompt = "Build a REST API" := by
  constructor
  · exact (C8_null_playbook_fallback [] "Build a REST API" []).1
  · intro s hs
    exact ((C8_null_playbook_fallback [] "Build a REST API" []).2.2 s hs).2.2.2.1
      (by decide)

/-- Counterexample to claim C8 as stated: for the empty request the
fallback prompt is the canned help text, not the request verbatim. -/
theorem C8_counterexample :
    (decomposeResult [] none "" []).map Step.prompt
      = ["Please help with the following task."] ∧
    "Please help with the following task." ≠ "" := by
  constructor
  · decide
  · decide

/-- Claim C9: `synthesize` reports overall success, the failed step names,
the exact total cost, the outcome count and the full artifact map; its
summary always contains the completed-vs-failed counts line, the total-cost
line and — when any non-internal artifact exists — the sorted list of
artifact keys not starting with an underscore; underscore-keys are excluded
from that reported list but stay in the returned artifact map. -/
theorem C9_synthesize_reports :
    ∀ (tool : Option ToolM) (st : ExecutionState) (sst : Option Step),
      (synthesize tool st sst).success = st.successB ∧
      (synthesize tool st sst).failed_steps = st.failed ∧
      (synthesize tool st sst).total_cost = st.total_cost ∧
      (synthesize tool st sst).step_count = st.outcomes.length ∧
      (synthesize tool st sst).artifacts = st.context ∧
      (synthesize tool st sst).summary
        = String.intercalate "\n"
            (build_summary_lines st (synthesize tool st sst).synthesis_output) ∧
      (st.failed ≠ [] →
        ("WARNING: " ++ toString st.failed.length ++ " step(s) failed: " ++
            String.intercalate ", " (pySorted st.failed))
          ∈ build_summary_lines st (synthesize tool st sst).synthesis_output) ∧
      (st.failed = [] →
        ("All " ++ toString st.completed.length ++ " steps completed successfully.")
          ∈ build_summary_lines st (synthesize tool st sst).synthesis_output) ∧
      ("Total cost: $" ++ fmtCost st.total_cost)
        ∈ build_summary_lines st (synthesize tool st sst).synthesis_output ∧
      (artifactNames st ≠ [] →
        ("Artifacts: " ++ String.intercalate ", " (pySorted (artifactNames st)))
          ∈ build_summary_lines st (synthesize tool st sst).synthesis_output) ∧
      List.Sorted pyStrLe (pySorted (artifactNames st)) ∧
      (∀ k, k ∈ pySorted (artifactNames st) ↔
        k ∈ st.context.map Prod.fst ∧ k.startsWith "_" = false) ∧
      (∀ kv ∈ st.context, kv ∈ (synthesize tool st sst).artifacts) := by
  intro tool st sst
  refine ⟨rfl, rfl, rfl, rfl, rfl, rfl, ?_, ?_, ?_, ?_, sorted_pySorted _, ?_, ?_⟩
  · intro h
    have hl : st.failed.length ≠ 0 := by simpa [List.length_eq_zero] using h
    simp [build_summary_lines, hl]
  · intro h
    simp [build_summary_lines, h]
  · simp [build_summary_lines]
  · intro h
    have hl : (artifactNames st).length ≠ 0 := by simpa [List.length_eq_zero] using h
    simp [build_summary_lines, hl]
  · intro k
    rw [mem_pySorted]
    simp [artifactNames, List.mem_filter]
  · intro kv hkv
    exact hkv

/-- Witness for C9 on a state with one failure and one internal artifact. -/
theorem C9_witness :
    ("WARNING: " ++ toString w9State.failed.length ++ " step(s) failed: " ++
      String.intercalate ", " (pySorted w9State.failed))
      ∈ build_summary_lines w9State (synthesize none w9State none).synthesis_output ∧
    (∀ k, k ∈ pySorted (artifactNames w9State) ↔
      k ∈ w9State.context.map Prod.fst ∧ k.startsWith "_" = false) := by
  constructor
  · exact (C9_synthesize_reports none w9State none).2.2.2.2.2.2.1 (by decide)
  · exact (C9_synthesize_reports none w9State none).2.2.2.2.2.2.2.2.2.2.2.1

/-- Claim C10: a run stored by `create_run`/`complete_run` is read back by
`_row_to_record` with an always-empty artifacts dictionary — the artifacts
JSON is taken from row index 6, the `step_count` column, so the stored
artifact snapshot (column 7) is never reconstructed; the other fields are
read back correctly. -/
theorem C10_retrieved_artifacts_empty :
    ∀ (id : Int) (run_id : String) (pb : Option String) (req status : String)
      (tc : ℚ) (sc : Int) (arts : List (String × String)) (summary : String)
      (ts tf : ℚ),
      (_row_to_record (completedRow id run_id pb req status tc sc arts summary
          ts tf)).artifacts = [] ∧
      (_row_to_record (completedRow id run_id pb req status tc sc arts summary
          ts tf)).step_count = sc ∧
      (_row_to_record (completedRow id run_id pb req status tc sc arts summary
          ts tf)).run_id = run_id ∧
      (_row_to_record (completedRow id run_id pb req status tc sc arts summary
          ts tf)).status = status ∧
      (_row_to_record (completedRow id run_id pb req status tc sc arts summary
          ts tf)).total_cost = tc ∧
      (_row_to_record (completedRow id run_id pb req status tc sc arts summary
          ts tf)).summary = summary ∧
      get_run_of_row (completedRow id run_id pb req status tc sc arts summary ts tf)
        = some (_row_to_record (completedRow id run_id pb req status tc sc arts
            summary ts tf)) := by
  intro id run_id pb req status tc sc arts summary ts tf
  refine ⟨?_, rfl, rfl, rfl, rfl, ?_, rfl⟩
  · by_cases hsc : sc = 0
    · simp [_row_to_record, completedRow, rowGet, pyOr, PyVal.truthy, hsc,
        jsonLoadsObj]
    · simp [_row_to_record, completedRow, rowGet, pyOr, PyVal.truthy, hsc,
        jsonLoadsObj]
  · by_cases hs : summary = ""
    · simp [_row_to_record, completedRow, rowGet, pyOr, PyVal.truthy, hs,
        PyVal.asStr]
    · simp [_row_to_record, completedRow, rowGet, pyOr, PyVal.truthy, hs,
        PyVal.asStr]
